import Mathlib

/-!
# Verification of the layer-tree model of `psd_tools/api/layers.py`

This file gives a shallow embedding, in Lean 4, of the layer-tree data model
and the operations of `src/psd_tools/api/layers.py` (class `Layer`, mixin
`GroupMixin`, classes `Group`, `ShapeLayer`, `FillLayer`), and proves the
behavioural claims of the specification against it.

Conventions used throughout:

* Python `int` is modelled as `Int`; a `(left, top, right, bottom)` tuple is
  modelled as the structure `Box`.
* Lazily cached attributes (the `_bbox` slot populated by
  `if not hasattr(self, "_bbox")`) are modelled as `Option Box` values:
  `none` means the attribute slot is absent, `some b` that it holds `b`.
* Python exceptions are modelled with `Except PyErr`; a function that can
  raise returns `Except PyErr α` and a raised exception is `.error e`.
* The object graph of a document is modelled by `PState`: layers are named by
  natural-number identities, and the per-object fields (`_parent`, `_layers`,
  the record rectangle and visibility flag, the `_bbox` cache slot and the
  `_psd` reference) are maps from identities to values.
-/

namespace PsdTools

/-- A `(left, top, right, bottom)` tuple of Python ints. -/
structure Box where
  l : Int
  t : Int
  r : Int
  b : Int
deriving DecidableEq, Repr

/-- The literal tuple `(0, 0, 0, 0)`, the "empty bounding box" of the code. -/
def zBox : Box := ⟨0, 0, 0, 0⟩

/-- Component-wise union of two boxes:
`(min lefts, min tops, max rights, max bottoms)`. -/
def joinBox (a b : Box) : Box :=
  ⟨min a.l b.l, min a.t b.t, max a.r b.r, max a.b b.b⟩

/-- `Group.extract_bbox` lines 770-773: from the already-filtered list
`bboxes`, return `(0,0,0,0)` when it is empty and otherwise
`(min(lefts), min(tops), max(rights), max(bottoms))`. -/
def unionBoxes : List Box → Box
  | [] => zBox
  | x :: xs => xs.foldl joinBox x

/-- The union of the non-`(0,0,0,0)` elements of a list of boxes
(the list comprehension of line 769 followed by lines 770-773). -/
def unionNZ (L : List Box) : Box :=
  unionBoxes (L.filter (fun b => b ≠ zBox))

/-- A box is well formed when `left ≤ right` and `top ≤ bottom`. -/
def wfBox (b : Box) : Bool :=
  decide (b.l ≤ b.r) && decide (b.t ≤ b.b)

/-- Join with `(0,0,0,0)` acting as the identity (matching the exclusion of
empty boxes from the union). -/
def joinNZ (a b : Box) : Box :=
  if a = zBox then b else if b = zBox then a else joinBox a b

/-!
## The layer tree seen by `Group.extract_bbox`

`Group.extract_bbox(layers)` (lines 745-773) only consults, for each layer in
the iterable, `layer.is_visible()`, `layer.is_group()`, the child sequence of
a group, and `layer.bbox` of a non-group layer.  `LTree` captures exactly that
view: a non-group layer (`leaf`) carries its record visibility flag and its
`bbox` tuple; a group carries its flag and its `_layers` sequence.

`Layer.is_visible` (lines 95-101) is `self.visible and self.parent.is_visible()`,
so it depends on the chain of ancestors above the node.  All functions below
therefore take a parameter `pv : Bool`, the value of `is_visible()` of the
parent of the layers currently being iterated, so that a child `c` of that
parent has `c.is_visible() = pv && c.visible`.
-/

/-- A layer as consulted by `Group.extract_bbox`: a non-group layer with its
record visibility flag and its `bbox`, or a group with its flag and its
ordered `_layers` sequence. -/
inductive LTree where
  | leaf (visible : Bool) (box : Box)
  | group (visible : Bool) (children : List LTree)

/-- The list `bboxes` built by `Group.extract_bbox` lines 764-768 before the
empty-box exclusion: for each layer kept by the filter
`include_invisible or layer.is_visible()`, the value of `_get_bbox(layer)`,
which is the recursive `Group.extract_bbox(layer)` for a group and
`layer.bbox` otherwise.  `pv` is `is_visible()` of the parent whose children
are being iterated. -/
def keepBoxes (inc : Bool) : Bool → List LTree → List Box
  | _, [] => []
  | pv, .leaf v b :: ts =>
      (if inc || (pv && v) then [b] else []) ++ keepBoxes inc pv ts
  | pv, .group v cs :: ts =>
      (if inc || (pv && v) then [unionNZ (keepBoxes inc (pv && v) cs)] else [])
        ++ keepBoxes inc pv ts

/-- `Group.extract_bbox(g, include_invisible=inc)` for a group `g` whose
`is_visible()` is `pv` and whose `_layers` are `cs`: the filtered child boxes,
with `(0,0,0,0)` excluded, folded with component-wise min/max (lines 764-773). -/
def extractBbox (inc : Bool) (pv : Bool) (cs : List LTree) : Box :=
  unionNZ (keepBoxes inc pv cs)

/-- `GroupMixin.bbox` (lines 628-633): if the `_bbox` slot is absent, it is
populated with `Group.extract_bbox(self)` (with the default
`include_invisible=False`) and returned. -/
def groupBboxRead (cache : Option Box) (pv : Bool) (cs : List LTree) : Box :=
  cache.getD (extractBbox false pv cs)

/-- Spec-side reading of the claim: the flat list of the `bbox`es of all
non-group descendants that pass the visibility filter, gathered depth first;
a group only contributes the boxes of its subtree, and an invisible subtree
(unless `inc`) contributes nothing. -/
def flatBoxes (inc : Bool) : Bool → List LTree → List Box
  | _, [] => []
  | pv, .leaf v b :: ts =>
      (if inc || (pv && v) then [b] else []) ++ flatBoxes inc pv ts
  | pv, .group v cs :: ts =>
      (if inc || (pv && v) then flatBoxes inc (pv && v) cs else [])
        ++ flatBoxes inc pv ts

/-- All non-group layers of the forest have a well-formed `bbox`
(`left ≤ right` and `top ≤ bottom`). -/
def wfForest : List LTree → Bool
  | [] => true
  | .leaf _ b :: ts => wfBox b && wfForest ts
  | .group _ cs :: ts => wfForest cs && wfForest ts

/-- A concrete document for the C1 witness: a visible leaf, a visible group
holding an invisible leaf and a visible leaf, and a visible leaf whose box is
the empty `(0,0,0,0)`. -/
def c1Forest : List LTree :=
  [.leaf true ⟨1, 2, 3, 4⟩,
   .group true [.leaf false ⟨0, 0, 9, 9⟩, .leaf true ⟨2, 1, 5, 3⟩],
   .leaf true zBox]

/-!
## `GroupMixin.descendants`

`descendants` (lines 707-730) iterates the child sequence; for each child it
yields the child, then (if the child is a group) the child's descendants, then
(since `include_clip and hasattr(layer, "clip_layers")` and every `Layer` sets
`_clip_layers` in `__init__`) the child's clip layers.  Layers are identified
by naturals; a node carries its identity, its `is_group()` flag, its child
sequence and its `_clip_layers` identities.
-/

/-- A layer as consulted by `GroupMixin.descendants`. -/
inductive DTree where
  | mk (ident : Nat) (grp : Bool) (children : List DTree) (clips : List Nat)

/-- The sequence of identities yielded by `GroupMixin.descendants` over a
child list (lines 723-730). -/
def descendantsSeq (inc : Bool) : List DTree → List Nat
  | [] => []
  | .mk i g cs ks :: ts =>
      i :: ((if g then descendantsSeq inc cs else [])
        ++ (if inc then ks else []) ++ descendantsSeq inc ts)

/-!
## The mutable object graph: `PState`

The structural operations of `Layer` and `GroupMixin` (`_invalidate_bbox`,
the `visible`/`left`/`top` setters, `delete_layer`, `move_to_group`,
`move_up`, `move_down`, `add_layer`, `group_layers`) mutate a heap of layer
objects linked by `_parent` references and `_layers` sequences.  `PState`
models that heap: layers are natural-number identities and each per-object
field is a map from identities.
-/

/-- Python exceptions raised by the modelled operations. -/
inductive PyErr where
  | attributeError
  | typeError
  | valueError
  | assertionError
deriving DecidableEq, Repr

/-- The record fields of a layer consulted by the structural operations:
the rectangle (`left`, `top`, `right`, `bottom`) and the visibility flag. -/
structure PRec where
  left : Int
  top : Int
  right : Int
  bottom : Int
  visible : Bool
deriving DecidableEq, Repr

/-- The object graph: `parentOf` is the `_parent` reference (`none` for a
detached node or the root), `childrenOf` the `_layers` sequence of a group,
`recOf` the layer record, `cacheOf` the `_bbox` cache slot (`none` when the
attribute is absent), `psdOf` the `_psd` reference, `isGroup` whether the
object is a `GroupMixin` instance, and `isPsdImage` whether its `kind` is
`"psdimage"`. -/
structure PState where
  parentOf : Nat → Option Nat
  childrenOf : Nat → List Nat
  recOf : Nat → PRec
  cacheOf : Nat → Option Box
  psdOf : Nat → Option Nat
  isGroup : Nat → Bool
  isPsdImage : Nat → Bool

/-- Point update of a map. -/
def upd {α : Type} (f : Nat → α) (k : Nat) (v : α) : Nat → α :=
  fun m => if m = k then v else f m

/-- One step of `Layer._invalidate_bbox` (lines 77-78): delete the `_bbox`
attribute of one object if present (in the `Option` model, set it to
`none`). -/
def clearCache (s : PState) (n : Nat) : PState :=
  { s with cacheOf := upd s.cacheOf n none }

/-- The `while current is not None` walk of `Layer._invalidate_bbox`
(lines 71-79), with explicit fuel bounding the number of iterations (the
Python loop terminates exactly when the parent chain reaches `None`; theorems
below supply an explicit finite ancestor chain). -/
def invalidateSteps : Nat → PState → Option Nat → PState
  | _, s, none => s
  | 0, s, some _ => s
  | fuel + 1, s, some n => invalidateSteps fuel (clearCache s n) (s.parentOf n)

/-- The `visible` setter (lines 90-93): invalidate the `_bbox` of the layer
and its ancestors, then store the flag. -/
def setVisible (fuel : Nat) (s : PState) (n : Nat) (v : Bool) : PState :=
  let s1 := invalidateSteps fuel s (some n)
  { s1 with recOf := upd s1.recOf n { s1.recOf n with visible := v } }

/-- The `left` setter (lines 158-163): invalidate, read `width`, then write
`left` and `right`.  On a `GroupMixin` instance the inherited `left` is a
read-only property (lines 612-614 define no setter), so assignment raises
`AttributeError`. -/
def setLeft (fuel : Nat) (s : PState) (n : Nat) (value : Int) :
    Except PyErr PState :=
  if s.isGroup n then .error .attributeError
  else
    let s1 := invalidateSteps fuel s (some n)
    let w := (s1.recOf n).right - (s1.recOf n).left
    let r := s1.recOf n
    .ok { s1 with recOf := upd s1.recOf n { r with left := value, right := value + w } }

/-- The `top` setter (lines 174-179), analogous to `setLeft`. -/
def setTop (fuel : Nat) (s : PState) (n : Nat) (value : Int) :
    Except PyErr PState :=
  if s.isGroup n then .error .attributeError
  else
    let s1 := invalidateSteps fuel s (some n)
    let h := (s1.recOf n).bottom - (s1.recOf n).top
    let r := s1.recOf n
    .ok { s1 with recOf := upd s1.recOf n { r with top := value, bottom := value + h } }

/-- `Layer.delete_layer` (lines 545-553): `self.parent._remove(self)` and
nothing else.  `_remove` is `list.remove`, which drops the first occurrence
and raises `ValueError` when absent; on a detached node (`parent` is `None`)
the attribute access raises. -/
def deleteLayer (s : PState) (n : Nat) : Except PyErr PState :=
  match s.parentOf n with
  | none => .error .attributeError
  | some p =>
      if n ∈ s.childrenOf p then
        .ok { s with childrenOf := upd s.childrenOf p ((s.childrenOf p).erase n) }
      else .error .valueError

/-- The shared `_psd`-inheritance step of `move_to_group` (lines 563-567) and
`add_layer` (lines 645-649): when the moved layer's `_psd` is `None`, set it
from the target "group or document" `g`. -/
def psdInherit (s : PState) (layer g : Nat) : PState :=
  match s.psdOf layer with
  | none =>
      if s.isPsdImage g then { s with psdOf := upd s.psdOf layer (some g) }
      else { s with psdOf := upd s.psdOf layer (s.psdOf g) }
  | some _ => s

/-- `GroupMixin.add_layer` (lines 635-654): no-op when the layer is the group
itself; otherwise inherit `_psd` when unset, then set the parent reference
and append to `_layers`. -/
def addLayer (s : PState) (g : Nat) (layer : Nat) : PState :=
  if layer = g then s
  else
    let s1 := psdInherit s layer g
    let s2 := { s1 with parentOf := upd s1.parentOf layer (some g) }
    { s2 with childrenOf := upd s2.childrenOf g (s2.childrenOf g ++ [layer]) }

/-- `Layer.move_to_group` (lines 555-575): no-op when the target is the layer
itself; inherit `_psd` when unset; `if self in self.parent` (a membership
test that raises `TypeError` when the parent reference is `None`) guards
`self._parent._remove(self)`; then `group._append(self)` and
`self._parent = group`. -/
def moveToGroup (s : PState) (selfN g : Nat) : Except PyErr PState :=
  if selfN = g then .ok s
  else
    let s1 := psdInherit s selfN g
    match s1.parentOf selfN with
    | none => .error .typeError
    | some p =>
        let s2 := if selfN ∈ s1.childrenOf p
          then { s1 with childrenOf := upd s1.childrenOf p ((s1.childrenOf p).erase selfN) }
          else s1
        let s3 := { s2 with childrenOf := upd s2.childrenOf g (s2.childrenOf g ++ [selfN]) }
        .ok { s3 with parentOf := upd s3.parentOf selfN (some g) }

/-- `ancChain s (n :: rest)` states that `n :: rest` is exactly the chain
visited by the `while current is not None` loop of `Layer._invalidate_bbox`:
consecutive elements are linked by `parentOf` and the parent of the last
element is `None`. -/
def ancChain (s : PState) : List Nat → Bool
  | [] => false
  | [m] => (s.parentOf m).isNone
  | m :: m2 :: rest => (s.parentOf m == some m2) && ancChain s (m2 :: rest)

/-- A concrete two-node document: group `0` is the root with a populated
`_bbox` cache slot and single child `1`; layer `1` is a plain visible layer
with record rectangle `(0, 0, 5, 5)`. -/
def exState : PState where
  parentOf := fun m => if m = 1 then some 0 else none
  childrenOf := fun m => if m = 0 then [1] else []
  recOf := fun _ => ⟨0, 0, 5, 5, true⟩
  cacheOf := fun m => if m = 0 then some ⟨0, 0, 5, 5⟩ else none
  psdOf := fun _ => some 0
  isGroup := fun m => m == 0
  isPsdImage := fun _ => false

/-- `Group.extract_bbox` read directly over the object graph (used to state
what a group's `bbox` read computes in `PState`); `fuel` bounds the recursion
depth (the Python recursion is over the finite acyclic tree). -/
def extractBboxG (s : PState) (inc : Bool) : Nat → Bool → Nat → Box
  | 0, _, _ => zBox
  | fuel + 1, pv, g =>
      unionNZ (((s.childrenOf g).filter
          (fun c => inc || (pv && (s.recOf c).visible))).map
        (fun c =>
          if s.isGroup c then
            extractBboxG s inc fuel (pv && (s.recOf c).visible) c
          else ⟨(s.recOf c).left, (s.recOf c).top,
                (s.recOf c).right, (s.recOf c).bottom⟩))

/-- `GroupMixin.bbox` (lines 628-633) over the object graph: return the
`_bbox` slot when populated, else compute `Group.extract_bbox(self)`. -/
def bboxReadG (s : PState) (fuel : Nat) (pv : Bool) (g : Nat) : Box :=
  (s.cacheOf g).getD (extractBboxG s false fuel pv g)

/-- `childPathB s a path d`: `d` is reachable from `a` by following `_layers`
membership through the intermediate nodes `path` (so `d` is a proper
descendant of `a`). -/
def childPathB (s : PState) : Nat → List Nat → Nat → Bool
  | a, [], d => decide (d ∈ s.childrenOf a)
  | a, x :: xs, d => decide (x ∈ s.childrenOf a) && childPathB s x xs d

/-- The state produced by `move_to_group` on the main path (the moved node
`n` differs from the target `g` and sits in the child sequence of its parent
`p`): inherit `_psd`, remove `n` from `p`'s sequence, append it to `g`'s,
and point `n`'s parent reference at `g`. -/
def moveApplied (s : PState) (n g p : Nat) : PState :=
  let s1 := psdInherit s n g
  let s2 := { s1 with childrenOf := upd s1.childrenOf p ((s1.childrenOf p).erase n) }
  let s3 := { s2 with childrenOf := upd s2.childrenOf g (s2.childrenOf g ++ [n]) }
  { s3 with parentOf := upd s3.parentOf n (some g) }

/-- A concrete three-node document for C5: root group `0` holds group `1`,
which holds group `2`. -/
def c5State : PState where
  parentOf := fun m => if m = 1 then some 0 else if m = 2 then some 1 else none
  childrenOf := fun m => if m = 0 then [1] else if m = 1 then [2] else []
  recOf := fun _ => ⟨0, 0, 5, 5, true⟩
  cacheOf := fun _ => none
  psdOf := fun _ => some 0
  isGroup := fun m => m ≤ 2
  isPsdImage := fun _ => false

/-!
## `Layer.move_up` / `Layer.move_down` and Python attribute lookup

Line 582 (and 599) evaluates `self._parent.index(self)`.  Attribute lookup on
a `Group` instance searches the class bodies of `Group`, `GroupMixin` and
`Layer` in method-resolution order; the name lists below enumerate exactly
the attributes those bodies bind in the source.
-/

/-- The attribute names bound in the class body of `Layer`
(lines 22-609). -/
def layerClassAttrs : List String :=
  ["__init__", "name", "kind", "layer_id", "_invalidate_bbox", "visible",
   "is_visible", "opacity", "parent", "is_group", "blend_mode", "left",
   "top", "right", "bottom", "width", "height", "offset", "size", "bbox",
   "has_pixels", "has_mask", "mask", "has_vector_mask", "vector_mask",
   "has_origination", "origination", "has_stroke", "stroke", "topil",
   "compose", "numpy", "composite", "has_clip_layers", "clip_layers",
   "clipping_layer", "has_effects", "effects", "tagged_blocks", "__repr__",
   "delete_layer", "move_to_group", "move_up", "move_down"]

/-- The attribute names bound in the class body of `GroupMixin`
(lines 611-730). -/
def groupMixinClassAttrs : List String :=
  ["left", "top", "right", "bottom", "bbox", "add_layer", "__len__",
   "__iter__", "__getitem__", "__setitem__", "__delitem__", "_append",
   "_remove", "_insert", "_clear", "_index", "compose", "descendants"]

/-- The attribute names visible on a `Group` instance: the bodies of `Group`
(lines 733-913), `GroupMixin` and `Layer`, in method-resolution order. -/
def groupClassAttrs : List String :=
  ["extract_bbox", "__init__", "_setting", "blend_mode", "composite", "new",
   "group_layers"] ++ groupMixinClassAttrs ++ layerClassAttrs

/-- `Layer.move_up` (lines 577-592) for a layer whose parent is a `Group`.
Line 582 performs the attribute lookup `self._parent.index`; the branch in
which the lookup succeeds carries the translation of the rest of the body
(compute the new rank, clamp it to `[0, len-1]`, `_remove` and `_insert`),
but since no class in the `Group` method-resolution order binds `index`, the
lookup raises `AttributeError` first.  A detached layer (`parent` is `None`)
also raises `AttributeError` (`None.index`). -/
def moveUp (s : PState) (n : Nat) (ranks : Int) : Except PyErr PState :=
  match s.parentOf n with
  | none => .error .attributeError
  | some p =>
      if groupClassAttrs.contains "index" then
        if n ∈ s.childrenOf p then
          let l := s.childrenOf p
          let newrank0 : Int := (l.indexOf n : Int) - ranks
          let newrank : Int :=
            if newrank0 < 0 then 0
            else if newrank0 ≥ (l.length : Int) then (l.length : Int) - 1
            else newrank0
          .ok { s with childrenOf := upd s.childrenOf p ((l.erase n).insertIdx newrank.toNat n) }
        else .error .valueError
      else .error .attributeError

/-- `Layer.move_down` (lines 594-609), identical to `move_up` except the new
rank is `index + ranks`. -/
def moveDown (s : PState) (n : Nat) (ranks : Int) : Except PyErr PState :=
  match s.parentOf n with
  | none => .error .attributeError
  | some p =>
      if groupClassAttrs.contains "index" then
        if n ∈ s.childrenOf p then
          let l := s.childrenOf p
          let newrank0 : Int := (l.indexOf n : Int) + ranks
          let newrank : Int :=
            if newrank0 < 0 then 0
            else if newrank0 ≥ (l.length : Int) then (l.length : Int) - 1
            else newrank0
          .ok { s with childrenOf := upd s.childrenOf p ((l.erase n).insertIdx newrank.toNat n) }
        else .error .valueError
      else .error .attributeError

/-- `Group.group_layers` (lines 885-913).  The guard
`if not layers: return None` is translated exactly: the untouched state and
the Python `None` result.  The non-empty branch — `Group.new` builds fresh
records out of classes defined outside `src/` and references the module-level
default owner `psd_file`, then each layer is moved into the group — is
abstracted as the argument `nonEmptyCase`, which receives the untouched
state, the layers and the `parent` argument. -/
def groupLayers
    (nonEmptyCase : PState → Nat → List Nat → Option Nat →
      Except PyErr (PState × Option Nat))
    (s : PState) (layers : List Nat) (parent : Option Nat) :
    Except PyErr (PState × Option Nat) :=
  match layers with
  | [] => .ok (s, none)
  | l0 :: ls => nonEmptyCase s l0 ls parent

/-!
## `Layer.name`

The getter (lines 31-40) reads the unicode-name tagged block with the legacy
record name as default; the setter (lines 42-50) asserts the length bound,
stores the value in the legacy record name if it encodes in `"macroman"`
(the placeholder `"?"` otherwise), and always stores the full value in the
unicode-name tagged block.  Whether a string encodes in the external
`macroman` codec is abstracted as the parameter `enc`.
-/

/-- The two name slots of a layer record: the legacy fixed-width `name` field
and the `UNICODE_LAYER_NAME` tagged block. -/
structure NameState where
  recordName : String
  unicodeName : Option String
deriving DecidableEq, Repr

/-- The `name` getter:
`tagged_blocks.get_data(Tag.UNICODE_LAYER_NAME, record.name)`. -/
def getName (st : NameState) : String :=
  st.unicodeName.getD st.recordName

/-- The `name` setter: `assert len(value) < 256`, then
`record.name = value` if `value.encode("macroman")` succeeds and
`record.name = "?"` on `UnicodeEncodeError`, and finally
`tagged_blocks.set_data(Tag.UNICODE_LAYER_NAME, value)`. -/
def setName (enc : String → Bool) (st : NameState) (v : String) :
    Except PyErr NameState :=
  if v.length < 256 then
    .ok { recordName := if enc v then v else "?", unicodeName := some v }
  else .error .assertionError

/-!
## `ShapeLayer.bbox`

Lines 1198-1229: a cache-miss read checks `has_pixels()`, then
`has_origination() and not any(x.invalidated for x in self.origination)`,
then `has_vector_mask()`, else `(0, 0, 0, 0)`.  The origination list itself
(lines 312-337) is empty whenever the tagged data carries a truthy
`keyShapeInvalidated`, and otherwise holds one shape per entry of
`keyDescriptorList`.  The shape objects and the vector mask are constructed
by `psd_tools/api/shape.py`, which is outside `src/`; following the spec
("live shapes expose their own bounding box"; "vector mask boundary in
normalized [0,1] document-relative coordinates"), a shape is modelled as its
`invalidated` flag plus its four rational bbox coordinates, and the vector
mask as its four rational normalized bounds.

Python `int(...)` on a number truncates toward zero and `round(...)` rounds
half to even; both are modelled on `ℚ`.
-/

/-- Python `int(q)`: truncation toward zero. -/
def pyTrunc (q : ℚ) : Int :=
  if q < 0 then ⌈q⌉ else ⌊q⌋

/-- Python `round(q)`: nearest integer, ties to the even integer. -/
def pyRound (q : ℚ) : Int :=
  if q - ⌊q⌋ < 1 / 2 then ⌊q⌋
  else if q - ⌊q⌋ > 1 / 2 then ⌊q⌋ + 1
  else if ⌊q⌋ % 2 = 0 then ⌊q⌋ else ⌊q⌋ + 1

/-- Modelled from the spec: a live-shape ("origination") descriptor as built
by `psd_tools/api/shape.py` (not under `src/`): its `invalidated` flag and
its own bounding box. -/
structure OriginShape where
  invalidated : Bool
  obl : ℚ
  obt : ℚ
  obr : ℚ
  obb : ℚ

/-- Modelled from the spec: a vector mask as built by
`psd_tools/api/shape.py` (not under `src/`): its boundary in normalized
[0,1] document-relative coordinates. -/
structure VMaskData where
  vbl : ℚ
  vbt : ℚ
  vbr : ℚ
  vbb : ℚ

/-- The fields of a `ShapeLayer` consulted by its `bbox` read: the record
rectangle, whether `has_pixels()` holds, the `VECTOR_ORIGINATION_DATA`
contents (`keyShapeInvalidated` and `keyDescriptorList`), the vector mask if
one of the two vector-mask tagged blocks is present, and the owning
document's `width`/`height`. -/
structure ShapeLayerS where
  recLeft : Int
  recTop : Int
  recRight : Int
  recBottom : Int
  hasPixels : Bool
  keyShapeInvalidated : Bool
  keyDescriptorList : List OriginShape
  vmask : Option VMaskData
  psdWidth : Int
  psdHeight : Int

/-- `Layer.origination` (lines 330-337): one shape per entry of
`keyDescriptorList`, but the empty list whenever `keyShapeInvalidated` is
truthy. -/
def origination (l : ShapeLayerS) : List OriginShape :=
  if l.keyShapeInvalidated then [] else l.keyDescriptorList

/-- The vector-mask branch of `ShapeLayer.bbox` (lines 1219-1226), falling
through to `(0, 0, 0, 0)` (line 1228) when no vector mask exists:
`int(round(coordinate * document dimension))` per coordinate, lefts and
rights scaled by the width, tops and bottoms by the height. -/
def shapeVMaskBox (l : ShapeLayerS) : Box :=
  match l.vmask with
  | some v =>
      ⟨pyRound (v.vbl * (l.psdWidth : ℚ)), pyRound (v.vbt * (l.psdHeight : ℚ)),
       pyRound (v.vbr * (l.psdWidth : ℚ)), pyRound (v.vbb * (l.psdHeight : ℚ))⟩
  | none => zBox

/-- `ShapeLayer.bbox` on a cache miss (lines 1201-1228): record rectangle if
the layer has pixels; else the `int`-truncated min/max envelope of the
origination boxes when origination is non-empty with no element invalidated;
else the scaled vector-mask box; else `(0, 0, 0, 0)`. -/
def shapeBbox (l : ShapeLayerS) : Box :=
  if l.hasPixels then ⟨l.recLeft, l.recTop, l.recRight, l.recBottom⟩
  else
    match origination l with
    | o :: os =>
        if (o :: os).any (fun x => x.invalidated) then shapeVMaskBox l
        else
          ⟨pyTrunc ((os.map (fun x => x.obl)).foldl min o.obl),
           pyTrunc ((os.map (fun x => x.obt)).foldl min o.obt),
           pyTrunc ((os.map (fun x => x.obr)).foldl max o.obr),
           pyTrunc ((os.map (fun x => x.obb)).foldl max o.obb)⟩
    | [] => shapeVMaskBox l

/-- `ShapeLayer.bbox` (lines 1198-1229): the `_bbox` slot when populated,
else the freshly computed box. -/
def shapeBboxRead (cache : Option Box) (l : ShapeLayerS) : Box :=
  cache.getD (shapeBbox l)

/-!
## `FillLayer`

Lines 1250-1273: `left` and `top` return the record values; `right` returns
`self._record.right or self._psd.width` and `bottom` the analogous
expression — Python `or` on ints yields the left operand unless it is the
falsy `0`.
-/

/-- Python `a or b` on ints: `a` unless `a == 0`. -/
def pyOrInt (a b : Int) : Int :=
  if a = 0 then b else a

/-- The record rectangle of a fill layer. -/
structure FillRec where
  left : Int
  top : Int
  right : Int
  bottom : Int
deriving DecidableEq, Repr

/-- The owning document's canvas size. -/
structure CanvasSize where
  width : Int
  height : Int
deriving DecidableEq, Repr

/-- `FillLayer.left` (lines 1259-1261). -/
def fillLeft (r : FillRec) : Int := r.left

/-- `FillLayer.top` (lines 1263-1265). -/
def fillTop (r : FillRec) : Int := r.top

/-- `FillLayer.right` (lines 1267-1269): `self._record.right or self._psd.width`. -/
def fillRight (r : FillRec) (c : CanvasSize) : Int :=
  pyOrInt r.right c.width

/-- `FillLayer.bottom` (lines 1271-1273): `self._record.bottom or self._psd.height`. -/
def fillBottom (r : FillRec) (c : CanvasSize) : Int :=
  pyOrInt r.bottom c.height

/-- `Layer.bbox` (lines 239-242) on a `FillLayer`: the tuple of the four
(overridden) accessors. -/
def fillBbox (r : FillRec) (c : CanvasSize) : Box :=
  ⟨fillLeft r, fillTop r, fillRight r c, fillBottom r c⟩

/-!
## Theorems

The embedding above is the data model; everything below proves the claimed
properties about it.
-/

/-- `joinBox` preserves well-formedness. -/
theorem wfBox_joinBox {a b : Box} (ha : wfBox a = true) (hb : wfBox b = true) :
    wfBox (joinBox a b) = true := by
  simp only [wfBox, joinBox, Bool.and_eq_true, decide_eq_true_eq] at *
  omega

/-- Joining a well-formed non-empty box with anything is non-empty. -/
theorem joinBox_ne_zBox_left {a : Box} (ha : wfBox a = true) (hz : a ≠ zBox)
    (b : Box) : joinBox a b ≠ zBox := by
  simp only [wfBox, Bool.and_eq_true, decide_eq_true_eq] at ha
  intro h
  apply hz
  have h1 : min a.l b.l = 0 := congrArg Box.l h
  have h2 : min a.t b.t = 0 := congrArg Box.t h
  have h3 : max a.r b.r = 0 := congrArg Box.r h
  have h4 : max a.b b.b = 0 := congrArg Box.b h
  have := min_le_left a.l b.l
  have := min_le_left a.t b.t
  have := le_max_left a.r b.r
  have := le_max_left a.b b.b
  have : a.l = 0 ∧ a.t = 0 ∧ a.r = 0 ∧ a.b = 0 := by omega
  cases a
  simp only [zBox, Box.mk.injEq]
  simp_all

/-- `joinBox` is associative. -/
theorem joinBox_assoc (a b c : Box) :
    joinBox (joinBox a b) c = joinBox a (joinBox b c) := by
  simp [joinBox, min_assoc, max_assoc]

/-- Folding `joinBox` over well-formed non-empty boxes stays well formed and
non-empty. -/
theorem foldl_joinBox_wf :
    ∀ (L : List Box) (x : Box), wfBox x = true → x ≠ zBox →
      (∀ b ∈ L, wfBox b = true ∧ b ≠ zBox) →
      wfBox (L.foldl joinBox x) = true ∧ L.foldl joinBox x ≠ zBox
  | [], x, hw, hz, _ => ⟨hw, hz⟩
  | b :: L, x, hw, hz, hall => by
    have hb := hall b (List.mem_cons_self _ _)
    exact foldl_joinBox_wf L (joinBox x b) (wfBox_joinBox hw hb.1)
      (joinBox_ne_zBox_left hw hz b)
      (fun c hc => hall c (List.mem_cons_of_mem _ hc))

/-- `unionBoxes` of a non-empty list of well-formed non-empty boxes is a
well-formed non-empty box. -/
theorem unionBoxes_wf {L : List Box} (hne : L ≠ [])
    (hall : ∀ b ∈ L, wfBox b = true ∧ b ≠ zBox) :
    wfBox (unionBoxes L) = true ∧ unionBoxes L ≠ zBox := by
  match L, hne with
  | x :: xs, _ =>
    have hx := hall x (List.mem_cons_self _ _)
    exact foldl_joinBox_wf xs x hx.1 hx.2
      (fun c hc => hall c (List.mem_cons_of_mem _ hc))

theorem joinNZ_zBox_left (b : Box) : joinNZ zBox b = b := by simp [joinNZ]

theorem joinNZ_zBox_right (a : Box) : joinNZ a zBox = a := by
  by_cases h : a = zBox <;> simp [joinNZ, h]

/-- Folding an associative operation from a combined seed. -/
theorem foldl_joinBox_pull :
    ∀ (L : List Box) (x y : Box),
      L.foldl joinBox (joinBox x y) = joinBox x (L.foldl joinBox y)
  | [], _, _ => rfl
  | b :: L, x, y => by
    simp only [List.foldl_cons, joinBox_assoc]
    exact foldl_joinBox_pull L x (joinBox y b)

/-- `unionBoxes` splits across concatenation, through `joinNZ`, as long as all
the boxes involved are well formed and non-empty. -/
theorem unionBoxes_append (as bs : List Box)
    (ha : ∀ b ∈ as, wfBox b = true ∧ b ≠ zBox)
    (hb : ∀ b ∈ bs, wfBox b = true ∧ b ≠ zBox) :
    unionBoxes (as ++ bs) = joinNZ (unionBoxes as) (unionBoxes bs) := by
  match as with
  | [] => simp [unionBoxes, joinNZ_zBox_left]
  | a :: as' =>
    have hX := unionBoxes_wf (List.cons_ne_nil a as') ha
    match bs with
    | [] =>
      simp [unionBoxes, joinNZ_zBox_right]
    | b :: bs' =>
      have hY := unionBoxes_wf (List.cons_ne_nil b bs') hb
      simp only [unionBoxes, List.cons_append, List.foldl_cons] at *
      rw [joinNZ, if_neg hX.2, if_neg hY.2]
      rw [List.foldl_append]
      rw [show List.foldl joinBox (List.foldl joinBox a as') (b :: bs')
            = List.foldl joinBox (joinBox (List.foldl joinBox a as') b) bs'
          from rfl]
      exact foldl_joinBox_pull bs' _ b

/-- `unionNZ` splits across concatenation through `joinNZ`, as long as every
non-empty box of the two lists is well formed. -/
theorem unionNZ_append (as bs : List Box)
    (ha : ∀ b ∈ as, b ≠ zBox → wfBox b = true)
    (hb : ∀ b ∈ bs, b ≠ zBox → wfBox b = true) :
    unionNZ (as ++ bs) = joinNZ (unionNZ as) (unionNZ bs) := by
  unfold unionNZ
  rw [List.filter_append]
  apply unionBoxes_append
  · intro b hbm
    have := List.of_mem_filter hbm
    have hne : b ≠ zBox := by simpa using this
    exact ⟨ha b (List.mem_of_mem_filter hbm) hne, hne⟩
  · intro b hbm
    have := List.of_mem_filter hbm
    have hne : b ≠ zBox := by simpa using this
    exact ⟨hb b (List.mem_of_mem_filter hbm) hne, hne⟩

theorem unionNZ_nil : unionNZ [] = zBox := rfl

theorem unionNZ_single (b : Box) : unionNZ [b] = b := by
  by_cases h : b = zBox
  · simp [unionNZ, unionBoxes, h, List.filter]
  · simp [unionNZ, unionBoxes, h, List.filter]

/-- A non-empty `unionNZ` of boxes that are well formed whenever non-empty is
itself well formed. -/
theorem unionNZ_wf {L : List Box}
    (h : ∀ b ∈ L, b ≠ zBox → wfBox b = true) :
    unionNZ L ≠ zBox → wfBox (unionNZ L) = true := by
  unfold unionNZ
  rcases hF : L.filter (fun b => b ≠ zBox) with _ | ⟨x, xs⟩
  · intro hz
    exact absurd rfl hz
  · intro _
    refine (unionBoxes_wf (List.cons_ne_nil x xs) ?_).1
    intro b hbm
    have hbm' : b ∈ L.filter (fun b => b ≠ zBox) := hF ▸ hbm
    have hne : b ≠ zBox := by simpa using List.of_mem_filter hbm'
    exact ⟨h b (List.mem_of_mem_filter hbm') hne, hne⟩

/-- Every box collected by `flatBoxes` is the box of some non-group layer of
the forest, hence well formed when the forest is. -/
theorem flatBoxes_wf (inc : Bool) :
    ∀ (pv : Bool) (cs : List LTree), wfForest cs = true →
      ∀ b ∈ flatBoxes inc pv cs, wfBox b = true
  | _, [], _, b, hb => by simp [flatBoxes] at hb
  | pv, .leaf v bx :: ts, hwf, b, hb => by
    simp only [wfForest, Bool.and_eq_true] at hwf
    simp only [flatBoxes, List.mem_append] at hb
    rcases hb with hb | hb
    · by_cases hc : (inc || (pv && v)) = true
      · simp only [hc, if_true, List.mem_singleton] at hb
        exact hb ▸ hwf.1
      · simp [hc] at hb
    · exact flatBoxes_wf inc pv ts hwf.2 b hb
  | pv, .group v cs' :: ts, hwf, b, hb => by
    simp only [wfForest, Bool.and_eq_true] at hwf
    simp only [flatBoxes, List.mem_append] at hb
    rcases hb with hb | hb
    · by_cases hc : (inc || (pv && v)) = true
      · simp only [hc, if_true] at hb
        exact flatBoxes_wf inc (pv && v) cs' hwf.1 b hb
      · simp [hc] at hb
    · exact flatBoxes_wf inc pv ts hwf.2 b hb

/-- Key equivalence: on a well-formed forest, the recursive child-box union
computed by `Group.extract_bbox` equals the union of the flat list of all
(transitively nested) contributing non-group boxes, with the `(0,0,0,0)`
boxes excluded; moreover every box kept by `keepBoxes`, if non-empty, is well
formed. -/
theorem extractBbox_eq_flat (inc : Bool) :
    ∀ (pv : Bool) (cs : List LTree), wfForest cs = true →
      extractBbox inc pv cs = unionNZ (flatBoxes inc pv cs) ∧
      (∀ b ∈ keepBoxes inc pv cs, b ≠ zBox → wfBox b = true)
  | pv, [], _ => by
    constructor
    · show unionNZ (keepBoxes inc pv []) = unionNZ (flatBoxes inc pv [])
      simp [keepBoxes, flatBoxes]
    · simp [keepBoxes]
  | pv, .leaf v bx :: ts, hwf => by
    simp only [wfForest, Bool.and_eq_true] at hwf
    have iht := extractBbox_eq_flat inc pv ts hwf.2
    have iht1 : unionNZ (keepBoxes inc pv ts) = unionNZ (flatBoxes inc pv ts) :=
      iht.1
    have hhead : ∀ b ∈ (if inc || (pv && v) then [bx] else []),
        b ≠ zBox → wfBox b = true := by
      intro b hb _
      by_cases hc : (inc || (pv && v)) = true <;> simp [hc] at hb
      exact hb ▸ hwf.1
    constructor
    · show unionNZ (keepBoxes inc pv (.leaf v bx :: ts))
          = unionNZ (flatBoxes inc pv (.leaf v bx :: ts))
      rw [show keepBoxes inc pv (.leaf v bx :: ts)
            = (if inc || (pv && v) then [bx] else []) ++ keepBoxes inc pv ts
          by simp [keepBoxes],
          show flatBoxes inc pv (.leaf v bx :: ts)
            = (if inc || (pv && v) then [bx] else []) ++ flatBoxes inc pv ts
          by simp [flatBoxes]]
      rw [unionNZ_append _ _ hhead (fun b hb hz => iht.2 b hb hz),
          unionNZ_append _ _ hhead
            (fun b hb _ => flatBoxes_wf inc pv ts hwf.2 b hb)]
      rw [iht1]
    · intro b hb hz
      rw [show keepBoxes inc pv (.leaf v bx :: ts)
            = (if inc || (pv && v) then [bx] else []) ++ keepBoxes inc pv ts
          by simp [keepBoxes]] at hb
      rcases List.mem_append.1 hb with hb | hb
      · exact hhead b hb hz
      · exact iht.2 b hb hz
  | pv, .group v cs' :: ts, hwf => by
    simp only [wfForest, Bool.and_eq_true] at hwf
    have ihc := extractBbox_eq_flat inc (pv && v) cs' hwf.1
    have iht := extractBbox_eq_flat inc pv ts hwf.2
    have iht1 : unionNZ (keepBoxes inc pv ts) = unionNZ (flatBoxes inc pv ts) :=
      iht.1
    have hsub : unionNZ (keepBoxes inc (pv && v) cs')
        = unionNZ (flatBoxes inc (pv && v) cs') := ihc.1
    have hsubwf : unionNZ (flatBoxes inc (pv && v) cs') ≠ zBox →
        wfBox (unionNZ (flatBoxes inc (pv && v) cs')) = true :=
      unionNZ_wf (fun b hb _ => flatBoxes_wf inc (pv && v) cs' hwf.1 b hb)
    have hhead : ∀ b ∈ (if inc || (pv && v)
          then [unionNZ (keepBoxes inc (pv && v) cs')] else []),
        b ≠ zBox → wfBox b = true := by
      intro b hb hz
      by_cases hc : (inc || (pv && v)) = true <;> simp [hc] at hb
      subst hb
      rw [hsub] at hz ⊢
      exact hsubwf hz
    have hheadflat : ∀ b ∈ (if inc || (pv && v)
          then flatBoxes inc (pv && v) cs' else []),
        b ≠ zBox → wfBox b = true := by
      intro b hb _
      by_cases hc : (inc || (pv && v)) = true <;> simp [hc] at hb
      exact flatBoxes_wf inc (pv && v) cs' hwf.1 b hb
    constructor
    · show unionNZ (keepBoxes inc pv (.group v cs' :: ts))
          = unionNZ (flatBoxes inc pv (.group v cs' :: ts))
      rw [show keepBoxes inc pv (.group v cs' :: ts)
            = (if inc || (pv && v)
                then [unionNZ (keepBoxes inc (pv && v) cs')] else [])
              ++ keepBoxes inc pv ts
          by simp [keepBoxes, extractBbox],
          show flatBoxes inc pv (.group v cs' :: ts)
            = (if inc || (pv && v) then flatBoxes inc (pv && v) cs' else [])
              ++ flatBoxes inc pv ts
          by simp [flatBoxes]]
      rw [unionNZ_append _ _ hhead (fun b hb hz => iht.2 b hb hz),
          unionNZ_append _ _ hheadflat
            (fun b hb _ => flatBoxes_wf inc pv ts hwf.2 b hb)]
      rw [iht1]
      congr 1
      by_cases hc : (inc || (pv && v)) = true
      · simp only [hc, if_true]
        rw [unionNZ_single, hsub]
      · simp [hc, unionNZ_nil]
    · intro b hb hz
      rw [show keepBoxes inc pv (.group v cs' :: ts)
            = (if inc || (pv && v)
                then [unionNZ (keepBoxes inc (pv && v) cs')] else [])
              ++ keepBoxes inc pv ts
          by simp [keepBoxes, extractBbox]] at hb
      rcases List.mem_append.1 hb with hb | hb
      · exact hhead b hb hz
      · exact iht.2 b hb hz

/-- C1.  For every group whose `_bbox` cache slot is unpopulated, and whose
non-group descendants all carry well-formed record boxes, reading `bbox`
returns the axis-aligned union (component-wise min of lefts and tops, max of
rights and bottoms) of the `bbox`es of the visible immediate and transitively
nested non-group children, boxes equal to `(0,0,0,0)` being excluded from the
union; if no visible child contributes a non-empty box the result is exactly
`(0,0,0,0)`; and `extract_bbox` with `include_invisible=True` takes the union
over all children regardless of visibility.  (`pv` is the `is_visible()`
value of the group itself, which enters every child's `is_visible()`.) -/
theorem groupBbox_flatUnion (pv : Bool) (cs : List LTree)
    (hwf : wfForest cs = true) :
    groupBboxRead none pv cs = unionNZ (flatBoxes false pv cs)
    ∧ ((flatBoxes false pv cs).filter (fun b => b ≠ zBox) = [] →
        groupBboxRead none pv cs = zBox)
    ∧ extractBbox true pv cs = unionNZ (flatBoxes true pv cs) := by
  have h1 : groupBboxRead none pv cs = unionNZ (flatBoxes false pv cs) :=
    (extractBbox_eq_flat false pv cs hwf).1
  refine ⟨h1, ?_, (extractBbox_eq_flat true pv cs hwf).1⟩
  intro hemp
  rw [h1, unionNZ, hemp]
  rfl

/-- Witness for C1 at a concrete group: the hypotheses hold and the cache-miss
`bbox` read computes the flat visible union `(1, 1, 5, 4)`. -/
theorem groupBbox_flatUnion_witness :
    groupBboxRead none true c1Forest = unionNZ (flatBoxes false true c1Forest)
    ∧ groupBboxRead none true c1Forest = Box.mk 1 1 5 4 := by
  have h := groupBbox_flatUnion true c1Forest
    (by simp [c1Forest, wfForest, wfBox, zBox])
  refine ⟨h.1, ?_⟩
  rw [h.1]
  simp [c1Forest, flatBoxes, unionNZ, unionBoxes, joinBox, zBox, List.filter]

/-- C7.  `descendants(include_clip=True)` yields a depth-first pre-order
traversal in which each yielded non-group node's clip layers come immediately
after it; in particular, on a container holding `[group(a, b), c]` where the
non-group layer `a` has clip layer `d`, it yields exactly
`[group, a, d, b, c]` (here numbered `group = 0, a = 1, d = 3, b = 2,
c = 4`). -/
theorem descendants_clip_order :
    (∀ (i : Nat) (cs : List DTree) (ks : List Nat) (ts : List DTree),
      descendantsSeq true (.mk i false cs ks :: ts)
        = i :: (ks ++ descendantsSeq true ts))
    ∧ descendantsSeq true
        [.mk 0 true [.mk 1 false [] [3], .mk 2 false [] []] [],
         .mk 4 false [] []]
      = [0, 1, 3, 2, 4] := by
  constructor
  · intro i cs ks ts
    simp [descendantsSeq]
  · simp [descendantsSeq]

theorem psdInherit_cacheOf (s : PState) (l g : Nat) :
    (psdInherit s l g).cacheOf = s.cacheOf := by
  unfold psdInherit
  cases s.psdOf l
  · by_cases h : s.isPsdImage g <;> simp [h]
  · rfl

theorem psdInherit_parentOf (s : PState) (l g : Nat) :
    (psdInherit s l g).parentOf = s.parentOf := by
  unfold psdInherit
  cases s.psdOf l
  · by_cases h : s.isPsdImage g <;> simp [h]
  · rfl

theorem psdInherit_childrenOf (s : PState) (l g : Nat) :
    (psdInherit s l g).childrenOf = s.childrenOf := by
  unfold psdInherit
  cases s.psdOf l
  · by_cases h : s.isPsdImage g <;> simp [h]
  · rfl

/-- Clearing a cache slot does not change the parent links, hence does not
change which lists are ancestor chains. -/
theorem ancChain_clearCache (s : PState) (n : Nat) :
    ∀ l, ancChain (clearCache s n) l = ancChain s l
  | [] => rfl
  | [_] => rfl
  | m :: m2 :: rest => by
      show ((s.parentOf m == some m2) && ancChain (clearCache s n) (m2 :: rest))
        = ((s.parentOf m == some m2) && ancChain s (m2 :: rest))
      rw [ancChain_clearCache s n (m2 :: rest)]

/-- The `_invalidate_bbox` walk along an ancestor chain clears exactly the
cache slots of the chain members and leaves every other slot unchanged. -/
theorem invalidateSteps_cacheOf :
    ∀ (rest : List Nat) (s : PState) (m0 : Nat),
      ancChain s (m0 :: rest) = true →
      ∀ k, (invalidateSteps (m0 :: rest).length s (some m0)).cacheOf k
        = if k ∈ (m0 :: rest) then none else s.cacheOf k
  | [], s, m0, h, k => by
    have hp : s.parentOf m0 = none := by
      simpa [ancChain, Option.isNone_iff_eq_none] using h
    show (invalidateSteps 0 (clearCache s m0) (s.parentOf m0)).cacheOf k = _
    rw [hp]
    show (clearCache s m0).cacheOf k = _
    simp only [clearCache, upd, List.mem_singleton]
  | m1 :: rest, s, m0, h, k => by
    have h' : (s.parentOf m0 == some m1) = true
        ∧ ancChain s (m1 :: rest) = true := by
      simpa [ancChain] using h
    have hp : s.parentOf m0 = some m1 := by
      have := h'.1
      simpa [beq_iff_eq] using this
    have hc : ancChain (clearCache s m0) (m1 :: rest) = true := by
      rw [ancChain_clearCache]
      exact h'.2
    show (invalidateSteps (m1 :: rest).length (clearCache s m0)
        (s.parentOf m0)).cacheOf k = _
    rw [hp]
    rw [invalidateSteps_cacheOf rest (clearCache s m0) m1 hc k]
    by_cases hk1 : k ∈ m1 :: rest
    · simp [hk1, List.mem_cons.2 (Or.inr hk1)]
    · simp only [hk1, if_false]
      show (if k = m0 then none else s.cacheOf k) = _
      by_cases hk0 : k = m0
      · simp [hk0, List.mem_cons]
      · have hnot : k ∉ m0 :: m1 :: rest := by
          intro hx
          rcases List.mem_cons.1 hx with h | h
          · exact hk0 h
          · exact hk1 h
        simp [hk0, hnot]

/-- C2 (amended).  Setting `visible`, `left` or `top` on a layer deletes the
cached bounding box on that layer and on every ancestor up to the root (so a
subsequent `bbox` read on any of them recomputes); `delete_layer`, by
contrast, performs no cache invalidation at all: it removes the layer from
its parent's child sequence and leaves every `_bbox` slot of the document
unchanged. -/
theorem mutators_invalidate_ancestors (s : PState) (n : Nat) (rest : List Nat)
    (v : Bool) (x y : Int) (hch : ancChain s (n :: rest) = true) :
    (∀ m ∈ n :: rest,
      (setVisible (n :: rest).length s n v).cacheOf m = none)
    ∧ (s.isGroup n = false →
        ∃ s', setLeft (n :: rest).length s n x = .ok s'
          ∧ ∀ m ∈ n :: rest, s'.cacheOf m = none)
    ∧ (s.isGroup n = false →
        ∃ s', setTop (n :: rest).length s n y = .ok s'
          ∧ ∀ m ∈ n :: rest, s'.cacheOf m = none)
    ∧ (∀ s', deleteLayer s n = .ok s' → ∀ m, s'.cacheOf m = s.cacheOf m) := by
  have hinv := invalidateSteps_cacheOf rest s n hch
  refine ⟨?_, ?_, ?_, ?_⟩
  · intro m hm
    show (invalidateSteps (n :: rest).length s (some n)).cacheOf m = none
    rw [hinv m]
    simp [hm]
  · intro hg
    unfold setLeft
    rw [if_neg (by simp [hg])]
    refine ⟨_, rfl, ?_⟩
    intro m hm
    show (invalidateSteps (n :: rest).length s (some n)).cacheOf m = none
    rw [hinv m]
    simp [hm]
  · intro hg
    unfold setTop
    rw [if_neg (by simp [hg])]
    refine ⟨_, rfl, ?_⟩
    intro m hm
    show (invalidateSteps (n :: rest).length s (some n)).cacheOf m = none
    rw [hinv m]
    simp [hm]
  · intro s' hdel m
    unfold deleteLayer at hdel
    split at hdel
    · cases hdel
    · split at hdel
      · cases hdel
        rfl
      · cases hdel

/-- Witness for C2 (amended) on `exState`: the chain `[1, 0]` is the ancestor
chain of layer `1`, and after `layer.visible = False` both cache slots are
gone. -/
theorem mutators_invalidate_ancestors_witness :
    (setVisible 2 exState 1 false).cacheOf 0 = none
    ∧ (setVisible 2 exState 1 false).cacheOf 1 = none := by
  have h := mutators_invalidate_ancestors exState 1 [0] false 0 0 (by decide)
  exact ⟨h.1 0 (by simp), h.1 1 (by simp)⟩

/-- Counterexample for C2 as stated: on `exState`, `delete_layer` on layer
`1` succeeds yet the parent group's cached bounding box survives (it is not
deleted), contradicting the claim that removal invalidates the cache on every
ancestor. -/
theorem deleteLayer_keepsCache :
    (match deleteLayer exState 1 with
      | .ok s' => s'.cacheOf 0
      | .error _ => none) = some ⟨0, 0, 5, 5⟩ := by
  decide

/-- `add_layer` touches only `_psd`, `_parent` and `_layers`: every `_bbox`
cache slot is untouched. -/
theorem addLayer_cacheOf (s : PState) (g l : Nat) :
    ∀ m, (addLayer s g l).cacheOf m = s.cacheOf m := by
  intro m
  unfold addLayer
  by_cases h : l = g
  · simp [h]
  · simp only [h, if_false]
    show (psdInherit s l g).cacheOf m = s.cacheOf m
    rw [psdInherit_cacheOf]

/-- `move_to_group` touches only `_psd`, `_parent` and `_layers`: whenever it
returns normally, every `_bbox` cache slot is untouched. -/
theorem moveToGroup_cacheOf (s : PState) (l g : Nat) :
    ∀ s', moveToGroup s l g = .ok s' → ∀ m, s'.cacheOf m = s.cacheOf m := by
  intro s' h m
  unfold moveToGroup at h
  split at h
  · cases h
    rfl
  · simp only [] at h
    split at h
    · cases h
    · cases h
      show (if l ∈ (psdInherit s l g).childrenOf _
          then _ else psdInherit s l g).cacheOf m = s.cacheOf m
      split
      · show (psdInherit s l g).cacheOf m = s.cacheOf m
        rw [psdInherit_cacheOf]
      · show (psdInherit s l g).cacheOf m = s.cacheOf m
        rw [psdInherit_cacheOf]

/-- C9.  Inserting a layer into a group via `add_layer` or `move_to_group`
never invalidates bounding-box caches: every `_bbox` slot in the document
(the group's and every ancestor's included) is unchanged, so when the group's
cache was populated with `b`, a subsequent `bbox` read still returns `b`
even though the child set changed. -/
theorem insert_preserves_caches (s : PState) (g l fuel : Nat) (pv : Bool)
    (b : Box) (hc : s.cacheOf g = some b) :
    (∀ m, (addLayer s g l).cacheOf m = s.cacheOf m)
    ∧ bboxReadG (addLayer s g l) fuel pv g = b
    ∧ (∀ s', moveToGroup s l g = .ok s' →
        (∀ m, s'.cacheOf m = s.cacheOf m) ∧ bboxReadG s' fuel pv g = b) := by
  refine ⟨addLayer_cacheOf s g l, ?_, ?_⟩
  · unfold bboxReadG
    rw [addLayer_cacheOf s g l g, hc]
    rfl
  · intro s' h
    refine ⟨moveToGroup_cacheOf s l g s' h, ?_⟩
    unfold bboxReadG
    rw [moveToGroup_cacheOf s l g s' h g, hc]
    rfl

/-- Witness for C9 on `exState`: adding new layer `2` to group `0` (whose
`_bbox` slot holds `(0,0,5,5)`) leaves the cache in place and the next `bbox`
read returns the stale `(0,0,5,5)`. -/
theorem insert_preserves_caches_witness :
    (addLayer exState 0 2).cacheOf 0 = some ⟨0, 0, 5, 5⟩
    ∧ bboxReadG (addLayer exState 0 2) 2 true 0 = ⟨0, 0, 5, 5⟩ := by
  have h := insert_preserves_caches exState 0 2 2 true ⟨0, 0, 5, 5⟩ (by decide)
  exact ⟨(h.1 0).trans (by decide), h.2.1⟩

/-- A child path not passing through `g` survives any transformation that
preserves child-membership of all nodes other than `g`. -/
theorem childPathB_mono (s s' : PState) (g : Nat)
    (hpres : ∀ a x, x ≠ g → x ∈ s.childrenOf a → x ∈ s'.childrenOf a) :
    ∀ (a : Nat) (path : List Nat) (d : Nat), g ∉ path → d ≠ g →
      childPathB s a path d = true → childPathB s' a path d = true
  | a, [], d, _, hdg, h => by
    have hm : d ∈ s.childrenOf a := by simpa [childPathB] using h
    simpa [childPathB] using hpres a d hdg hm
  | a, x :: xs, d, hgp, hdg, h => by
    have h' : x ∈ s.childrenOf a ∧ childPathB s x xs d = true := by
      simpa [childPathB] using h
    have hxg : x ≠ g := fun he => hgp (he ▸ List.mem_cons_self x xs)
    have hrest : g ∉ xs := fun hx => hgp (List.mem_cons_of_mem x hx)
    have := childPathB_mono s s' g hpres x xs d hrest hdg h'.2
    simp [childPathB, hpres a x hxg h'.1, this]

/-- On the main path, `move_to_group` returns normally with `moveApplied`. -/
theorem moveToGroup_eq (s : PState) (n g p : Nat) (hneq : n ≠ g)
    (hpar : s.parentOf n = some p) (hmem : n ∈ s.childrenOf p) :
    moveToGroup s n g = .ok (moveApplied s n g p) := by
  unfold moveToGroup
  rw [if_neg hneq]
  have hp1 : (psdInherit s n g).parentOf n = some p := by
    rw [psdInherit_parentOf]
    exact hpar
  simp only [hp1]
  have hm1 : n ∈ (psdInherit s n g).childrenOf p := by
    rw [psdInherit_childrenOf]
    exact hmem
  rw [if_pos hm1]
  rfl

theorem moveApplied_parentOf (s : PState) (n g p : Nat) :
    (moveApplied s n g p).parentOf = upd s.parentOf n (some g) := by
  unfold moveApplied
  simp only []
  rw [psdInherit_parentOf]

theorem moveApplied_childrenOf (s : PState) (n g p : Nat) :
    (moveApplied s n g p).childrenOf
      = upd (upd s.childrenOf p ((s.childrenOf p).erase n)) g
          ((upd s.childrenOf p ((s.childrenOf p).erase n)) g ++ [n]) := by
  unfold moveApplied
  simp only []
  rw [psdInherit_childrenOf]

/-- C5.  `move_to_group` performs no cyclic-structure validation: for a group
`g` (child of `p`) and a proper descendant `d` of `g` (reached through
`path`), `move_to_group(g, d)` completes without raising, detaches `g` from
`p`'s child sequence and appends it to `d`'s — after which the child path
from `g` down to `d` still exists while `g` is also a child of `d`, i.e. the
tree's acyclicity is corrupted. -/
theorem moveToGroup_unchecked_cycle (s : PState) (g d p : Nat)
    (path : List Nat) (hpar : s.parentOf g = some p)
    (hmem : g ∈ s.childrenOf p) (hgd : g ≠ d) (hpd : p ≠ d)
    (hpath : childPathB s g path d = true) (hgpath : g ∉ path) :
    moveToGroup s g d = .ok (moveApplied s g d p)
    ∧ (moveApplied s g d p).parentOf g = some d
    ∧ (moveApplied s g d p).childrenOf p = (s.childrenOf p).erase g
    ∧ g ∈ (moveApplied s g d p).childrenOf d
    ∧ childPathB (moveApplied s g d p) g path d = true
    ∧ childPathB (moveApplied s g d p) d [] g = true := by
  have hch := moveApplied_childrenOf s g d p
  have hchd : (moveApplied s g d p).childrenOf d = s.childrenOf d ++ [g] := by
    rw [hch]
    simp only [upd, if_pos rfl]
    rw [if_neg (Ne.symm hpd)]
    simp
  have hgind : g ∈ (moveApplied s g d p).childrenOf d := by
    rw [hchd]
    simp
  have hpres : ∀ a x, x ≠ g → x ∈ s.childrenOf a →
      x ∈ (moveApplied s g d p).childrenOf a := by
    intro a x hxg hxa
    rw [hch]
    show x ∈ (if a = d then _ else _)
    by_cases had : a = d
    · rw [if_pos had]
      show x ∈ (if d = p then _ else s.childrenOf d) ++ [g]
      rw [if_neg (Ne.symm hpd)]
      exact List.mem_append_left _ (had ▸ hxa)
    · rw [if_neg had]
      show x ∈ (if a = p then (s.childrenOf p).erase g else s.childrenOf a)
      by_cases hap : a = p
      · rw [if_pos hap]
        exact (List.mem_erase_of_ne hxg).2 (hap ▸ hxa)
      · rw [if_neg hap]
        exact hxa
  refine ⟨moveToGroup_eq s g d p hgd hpar hmem, ?_, ?_, hgind, ?_, ?_⟩
  · rw [moveApplied_parentOf]
    simp [upd]
  · rw [hch]
    show (if p = d then _ else
      (if p = p then (s.childrenOf p).erase g else s.childrenOf p)) = _
    rw [if_neg hpd, if_pos rfl]
  · exact childPathB_mono s (moveApplied s g d p) g hpres g path d hgpath
      (Ne.symm hgd) hpath
  · simp [childPathB, hgind]

/-- Witness for C5: moving group `1` into its own child `2` completes with no
error and produces a two-node cycle (`1` is a child of `2` and `2` a child of
`1`). -/
theorem moveToGroup_unchecked_cycle_witness :
    moveToGroup c5State 1 2 = .ok (moveApplied c5State 1 2 0)
    ∧ (moveApplied c5State 1 2 0).parentOf 1 = some 2
    ∧ 1 ∈ (moveApplied c5State 1 2 0).childrenOf 2
    ∧ childPathB (moveApplied c5State 1 2 0) 1 [] 2 = true
    ∧ childPathB (moveApplied c5State 1 2 0) 2 [] 1 = true := by
  have h := moveToGroup_unchecked_cycle c5State 1 2 0 [] (by decide)
    (by decide) (by decide) (by decide) (by decide) (by simp)
  exact ⟨h.1, h.2.1, h.2.2.2.1, h.2.2.2.2.1, h.2.2.2.2.2⟩

/-- C8.  `move_up(ranks=0)` and `move_down(ranks=0)` on a layer whose parent
is a `Group` do not perform the claimed clamp-and-reinsert no-op: the call
`self._parent.index(self)` fails with `AttributeError`, because no class in
the `Group` method-resolution order binds `index` (`GroupMixin` binds only
`_index`). -/
theorem moveUp_attributeError :
    groupClassAttrs.contains "index" = false
    ∧ moveUp exState 1 0 = .error .attributeError
    ∧ moveDown exState 1 0 = .error .attributeError := by
  refine ⟨by decide, rfl, rfl⟩

/-- C4 (amended).  Calling `group_layers` with an empty layer list returns
`None` — it raises no exception and produces no error report — and performs
no tree mutation: the state comes back unchanged, so no group is created or
attached and no parent's child sequence changes. -/
theorem groupLayers_empty_noMutation
    (nonEmptyCase : PState → Nat → List Nat → Option Nat →
      Except PyErr (PState × Option Nat))
    (s : PState) (parent : Option Nat) :
    groupLayers nonEmptyCase s [] parent = .ok (s, none) := rfl

/-- Counterexample for C4 as stated: at a concrete state, grouping zero
layers does not fail with any `EmptyInput`/`EmptyGroupingRequest` report
(the result is a normal return, not an error), while the state is
untouched. -/
theorem groupLayers_empty_noReport :
    groupLayers (fun _ _ _ _ => .error .typeError) exState [] none
      = .ok (exState, none) := rfl

/-- C6.  For every string `v` with fewer than 256 code units, assigning the
layer's name to `v` raises no error and a subsequent read returns exactly
`v`; when `v` does not encode in the legacy `macroman` charset the legacy
record name becomes the placeholder `"?"`, while the unicode-name slot
carries the full `v` in every case. -/
theorem setName_roundTrip (enc : String → Bool) (st : NameState) (v : String)
    (h : v.length < 256) :
    ∃ st', setName enc st v = .ok st'
      ∧ getName st' = v
      ∧ st'.unicodeName = some v
      ∧ (enc v = false → st'.recordName = "?") := by
  refine ⟨⟨if enc v then v else "?", some v⟩, ?_, ?_, rfl, ?_⟩
  · unfold setName
    rw [if_pos h]
  · simp [getName]
  · intro he
    simp [he]

/-- Witness for C6 with a name the legacy charset cannot represent (the
encoder rejects every string): the setter succeeds, the read returns the
name, the record field holds `"?"`. -/
theorem setName_roundTrip_witness :
    ∃ st', setName (fun _ => false) ⟨"old", none⟩ "abc" = .ok st'
      ∧ getName st' = "abc" ∧ st'.unicodeName = some "abc"
      ∧ st'.recordName = "?" := by
  obtain ⟨st', h1, h2, h3, h4⟩ :=
    setName_roundTrip (fun _ => false) ⟨"old", none⟩ "abc" (by decide)
  exact ⟨st', h1, h2, h3, h4 rfl⟩

/-- C3.  On a `ShapeLayer` with an unpopulated cache, the first `bbox` read
resolves in priority order: record rectangle when the layer has raster
pixels; else, the integer min/max envelope of the origination boxes when the
origination list is non-empty with no element invalidated; else, the vector
mask's normalized bounds scaled as `round(value * document dimension)` when
a vector mask exists; else exactly `(0, 0, 0, 0)`. -/
theorem shapeLayer_bbox_priority (l : ShapeLayerS) (o : OriginShape)
    (os : List OriginShape) (v : VMaskData) :
    (shapeBboxRead none l = shapeBbox l)
    ∧ (l.hasPixels = true →
        shapeBbox l = ⟨l.recLeft, l.recTop, l.recRight, l.recBottom⟩)
    ∧ (l.hasPixels = false → origination l = o :: os →
        (o :: os).any (fun x => x.invalidated) = false →
        shapeBbox l
          = ⟨pyTrunc ((os.map (fun x => x.obl)).foldl min o.obl),
             pyTrunc ((os.map (fun x => x.obt)).foldl min o.obt),
             pyTrunc ((os.map (fun x => x.obr)).foldl max o.obr),
             pyTrunc ((os.map (fun x => x.obb)).foldl max o.obb)⟩)
    ∧ (l.hasPixels = false →
        (origination l = [] ∨ (origination l).any (fun x => x.invalidated) = true) →
        l.vmask = some v →
        shapeBbox l
          = ⟨pyRound (v.vbl * (l.psdWidth : ℚ)),
             pyRound (v.vbt * (l.psdHeight : ℚ)),
             pyRound (v.vbr * (l.psdWidth : ℚ)),
             pyRound (v.vbb * (l.psdHeight : ℚ))⟩)
    ∧ (l.hasPixels = false →
        (origination l = [] ∨ (origination l).any (fun x => x.invalidated) = true) →
        l.vmask = none → shapeBbox l = zBox) := by
  refine ⟨rfl, ?_, ?_, ?_, ?_⟩
  · intro hp
    unfold shapeBbox
    rw [if_pos hp]
  · intro hp horig hinv
    unfold shapeBbox
    rw [if_neg (by simp [hp]), horig]
    simp [hinv]
  · intro hp horig hv
    have hm : shapeVMaskBox l
        = ⟨pyRound (v.vbl * (l.psdWidth : ℚ)), pyRound (v.vbt * (l.psdHeight : ℚ)),
           pyRound (v.vbr * (l.psdWidth : ℚ)), pyRound (v.vbb * (l.psdHeight : ℚ))⟩ := by
      unfold shapeVMaskBox
      rw [hv]
    unfold shapeBbox
    rw [if_neg (by simp [hp])]
    rcases horig with he | hany
    · rw [he]
      exact hm
    · rcases ho : origination l with _ | ⟨o', os'⟩
      · exact hm
      · rw [ho] at hany
        simp [hany, hm]
  · intro hp horig hv
    have hm : shapeVMaskBox l = zBox := by
      unfold shapeVMaskBox
      rw [hv]
    unfold shapeBbox
    rw [if_neg (by simp [hp])]
    rcases horig with he | hany
    · rw [he]
      exact hm
    · rcases ho : origination l with _ | ⟨o', os'⟩
      · exact hm
      · rw [ho] at hany
        simp [hany, hm]

/-- Witness for C3 exercising the origination branch: one non-invalidated
live shape with rational box `(1, 2, 7/2, 9/2)` gives the truncated envelope
`(1, 2, 3, 4)`; and the vector-mask branch: bounds `(0, 0, 1/2, 1/4)` on a
`100 × 50` document give `(0, 0, 50, 12)` (12, not 13: `round(12.5)` ties to
even). -/
theorem shapeLayer_bbox_priority_witness :
    shapeBboxRead none
        ⟨0, 0, 0, 0, false, false, [⟨false, 1, 2, 7/2, 9/2⟩], none, 100, 50⟩
      = ⟨1, 2, 3, 4⟩
    ∧ shapeBboxRead none
        ⟨0, 0, 0, 0, false, false, [], some ⟨0, 0, 1/2, 1/4⟩, 100, 50⟩
      = ⟨0, 0, 50, 12⟩ := by
  constructor
  · have h := shapeLayer_bbox_priority
      ⟨0, 0, 0, 0, false, false, [⟨false, 1, 2, 7/2, 9/2⟩], none, 100, 50⟩
      ⟨false, 1, 2, 7/2, 9/2⟩ [] ⟨0, 0, 0, 0⟩
    rw [h.1, h.2.2.1 rfl (by simp [origination]) (by simp)]
    show Box.mk (pyTrunc 1) (pyTrunc 2) (pyTrunc (7/2)) (pyTrunc (9/2)) = _
    norm_num [pyTrunc]
  · have h := shapeLayer_bbox_priority
      ⟨0, 0, 0, 0, false, false, [], some ⟨0, 0, 1/2, 1/4⟩, 100, 50⟩
      ⟨false, 0, 0, 0, 0⟩ [] ⟨0, 0, 1/2, 1/4⟩
    rw [h.1, h.2.2.2.1 rfl (Or.inl (by simp [origination])) rfl]
    show Box.mk (pyRound (0 * 100)) (pyRound (0 * 50))
      (pyRound (1/2 * 100)) (pyRound (1/4 * 50)) = _
    norm_num [pyRound]

/-- C10.  A fill layer's `right` accessor returns the record's right when
nonzero and the canvas width otherwise, `bottom` the record's bottom when
nonzero and the canvas height otherwise, while `left` and `top` always
return the stored record values; hence a fill layer recorded with
`right = bottom = 0` reports a box extending to the full canvas. -/
theorem fillLayer_defaults (r : FillRec) (c : CanvasSize) :
    (r.right ≠ 0 → fillRight r c = r.right)
    ∧ (r.right = 0 → fillRight r c = c.width)
    ∧ (r.bottom ≠ 0 → fillBottom r c = r.bottom)
    ∧ (r.bottom = 0 → fillBottom r c = c.height)
    ∧ fillLeft r = r.left
    ∧ fillTop r = r.top
    ∧ (r.right = 0 → r.bottom = 0 →
        fillBbox r c = ⟨r.left, r.top, c.width, c.height⟩) := by
  refine ⟨?_, ?_, ?_, ?_, rfl, rfl, ?_⟩
  · intro h
    simp [fillRight, pyOrInt, h]
  · intro h
    simp [fillRight, pyOrInt, h]
  · intro h
    simp [fillBottom, pyOrInt, h]
  · intro h
    simp [fillBottom, pyOrInt, h]
  · intro hr hb
    simp [fillBbox, fillLeft, fillTop, fillRight, fillBottom, pyOrInt, hr, hb]

/-- Witness for C10: the record `(3, 4, 0, 0)` on a `100 × 50` canvas reports
the full-canvas box `(3, 4, 100, 50)`. -/
theorem fillLayer_defaults_witness :
    fillBbox ⟨3, 4, 0, 0⟩ ⟨100, 50⟩ = ⟨3, 4, 100, 50⟩ :=
  (fillLayer_defaults ⟨3, 4, 0, 0⟩ ⟨100, 50⟩).2.2.2.2.2.2 rfl rfl

end PsdTools

